import Mathlib

/-!
Verification development for the ff14-market-bot repository.

The repository contains several near-identical variants of the same
command: `src/index.js` (two variants concatenated), `src/unnamed/part_000`
(two variants), `src/unnamed/part_001` (the data-center coordinator with
cache and in-flight de-duplication) and `src/unnamed/part_002` (the
hard-coded item map variant).

We shallowly embed the query engine of each variant: the search index
(`findItems`, `searchItems`), the per-world aggregation (`fetchPrice`,
`fetchPriceCached`), the data-center aggregation (`computeStats`,
`sendPriceStats`), the resolver (`resolveItemIdByName`) and the
cache/in-flight coordinator (`queryTchwPrice`, modelled as a small-step
machine, since its behaviour is an interleaving of atomic blocks between
`await` suspension points of the single-threaded event loop).

JS numbers that hold prices are embedded as `Nat` (all upstream prices are
non-negative integers); `Math.round(sum/len)` over naturals is the exact
rational rounding `(2*sum+len)/(2*len)` in natural division, which agrees
with the float computation on the magnitudes involved.  Absent values
(`undefined`/`null`) are `Option.none`; a JS function that can throw is
embedded with an `Option`/sum result where `none` marks the thrown path.
-/

namespace Bot

/-! ### Association-list maps (JS `Map` with string or numeric keys) -/

/-- Lookup in an association list; models `Map.prototype.get`/`has`. -/
def aget {κ β : Type} [DecidableEq κ] : List (κ × β) → κ → Option β
  | [], _ => none
  | (k', v) :: rest, k => if k' = k then some v else aget rest k

/-- Remove a key; models `Map.prototype.delete`. -/
def adel {κ β : Type} [DecidableEq κ] : List (κ × β) → κ → List (κ × β)
  | [], _ => []
  | (k', v) :: rest, k => if k' = k then adel rest k else (k', v) :: adel rest k

/-- Insert/replace a key; models `Map.prototype.set`. -/
def aset {κ β : Type} [DecidableEq κ] (m : List (κ × β)) (k : κ) (v : β) :
    List (κ × β) :=
  (k, v) :: adel m k

theorem aget_aset_self {κ β : Type} [DecidableEq κ] (m : List (κ × β)) (k : κ) (v : β) :
    aget (aset m k v) k = some v := by
  simp [aset, aget]

theorem aget_adel_self {κ β : Type} [DecidableEq κ] (m : List (κ × β)) (k : κ) :
    aget (adel m k) k = none := by
  induction m with
  | nil => simp [adel, aget]
  | cons p rest ih =>
    obtain ⟨k', v⟩ := p
    by_cases h : k' = k
    · simpa [adel, h] using ih
    · simpa [adel, aget, h] using ih

theorem aget_adel_of_ne {κ β : Type} [DecidableEq κ] (m : List (κ × β)) (k k' : κ)
    (h : k' ≠ k) : aget (adel m k) k' = aget m k' := by
  induction m with
  | nil => simp [adel]
  | cons p rest ih =>
    obtain ⟨k₀, v⟩ := p
    by_cases h0 : k₀ = k
    · have hne : ¬ k₀ = k' := fun hh => h (hh.symm.trans h0)
      simp only [adel, aget, if_pos h0, if_neg hne]
      exact ih
    · by_cases h1 : k₀ = k'
      · simp only [adel, aget, if_neg h0, if_pos h1]
      · simp only [adel, aget, if_neg h0, if_neg h1]
        exact ih

theorem aget_aset_of_ne {κ β : Type} [DecidableEq κ] (m : List (κ × β)) (k k' : κ) (v : β)
    (h : k' ≠ k) : aget (aset m k v) k' = aget m k' := by
  have hne : ¬ k = k' := fun hh => h hh.symm
  simp only [aset, aget, if_neg hne]
  exact aget_adel_of_ne m k k' h

/-! ### String helpers (JS string operations, ASCII-faithful) -/

/-- `s` starts with pattern `p` on character lists;
models `String.prototype.startsWith`. -/
def listStarts : List Char → List Char → Bool
  | _, [] => true
  | [], _ :: _ => false
  | c :: cs, d :: ds => c = d && listStarts cs ds

/-- `s` contains pattern `p` as a contiguous run;
models `String.prototype.includes`. -/
def listIncl : List Char → List Char → Bool
  | [], p => p.isEmpty
  | s@(_ :: cs), p => listStarts s p || listIncl cs p

def strStarts (s p : String) : Bool := listStarts s.data p.data

def strIncludes (s p : String) : Bool := listIncl s.data p.data

theorem listStarts_incl (s p : List Char) (h : listStarts s p = true) :
    listIncl s p = true := by
  cases s with
  | nil =>
    cases p with
    | nil => simp [listIncl]
    | cons d ds => simp [listStarts] at h
  | cons c cs => simp [listIncl, h]

theorem strStarts_includes (s p : String) (h : strStarts s p = true) :
    strIncludes s p = true :=
  listStarts_incl s.data p.data h

/-- Lower-case a string character-wise; models
`String.prototype.toLowerCase` on the ASCII range. -/
def strLower (s : String) : String := ⟨s.data.map Char.toLower⟩

/-- Drop every whitespace character, including the full-width space U+3000;
models `.replace(/\s+/g, '')` followed by `.replace(/　/g, '')` (the JS
class `\s` covers the ASCII whitespace handled by `Char.isWhitespace`, and
U+3000 is handled by the explicit second replace). A leading `.trim()` is
subsumed by removing all whitespace. -/
def jsStripWs (s : String) : String :=
  ⟨s.data.filter (fun c => !(c.isWhitespace || c = '　'))⟩

/-- `normalize` (src/index.js:69-75, also `normalizeName` at 308-314 and the
copy in part_000:306-311): trim, lower-case, strip all whitespace. -/
def normalize (s : String) : String := jsStripWs (strLower s)

/-- Trim leading and trailing whitespace; models `String.prototype.trim`. -/
def strTrim (s : String) : String :=
  ⟨((s.data.dropWhile Char.isWhitespace).reverse.dropWhile Char.isWhitespace).reverse⟩

/-! ### Arithmetic helpers -/

/-- `Math.round(l.sum / l.length)` for natural prices: exact rounding of the
rational mean, ties rounded up (toward +infinity) as `Math.round` does. -/
def roundMean (l : List Nat) : Nat := (2 * l.sum + l.length) / (2 * l.length)

/-- `Math.min(...prices)` on a non-empty spread (`0` as a don't-care for `[]`,
which every caller guards against). -/
def minNat : List Nat → Nat
  | [] => 0
  | x :: xs => xs.foldl Nat.min x

/-- `a || b` on a possibly-absent JS number: both `undefined` and `0` are
falsy, so they select `b`. -/
def jsOrNat (a : Option Nat) (b : Nat) : Nat :=
  match a with
  | some v => if v = 0 then b else v
  | none => b

/-- `s || <alt>` on a possibly-absent JS string: `undefined` and `""` are
falsy. -/
def truthyStr : Option String → Option String
  | some s => if s = "" then none else some s
  | none => none

/-! ### NameIndex: search over the item catalog -/

/-- One entry of `SEARCH_INDEX` (src/index.js:77-81): `id`, the normalized
`key`, and the raw display name. -/
structure IndexEntry where
  id : Nat
  key : String
  raw : String
deriving DecidableEq

/-- The merge/de-duplicate/cap loop of `findItems` (src/index.js:93-100):
walk `prefixTier ++ containsTier`, skip ids already seen, push otherwise,
and break once `merged.length >= limit` (checked after the push, so a
`limit` of `0` still yields one element, as in the source). -/
def mergeDedup (limit : Nat) : List IndexEntry → List Nat → List IndexEntry
  | [], _ => []
  | x :: xs, seen =>
    if x.id ∈ seen then mergeDedup limit xs seen
    else if limit ≤ 1 then [x]
    else x :: mergeDedup (limit - 1) xs (x.id :: seen)

/-- `findItems` (src/index.js:83-102): exact tier first; otherwise the
startsWith tier followed by the includes tier, de-duplicated by id and
capped at `limit`.  No sorting is applied in this variant. -/
def findItems (idx : List IndexEntry) (keyword : String) (limit : Nat) :
    List IndexEntry :=
  let key := normalize keyword
  if key = "" then []
  else
    match idx.filter (fun x => x.key == key) with
    | e :: es => (e :: es).take limit
    | [] =>
      let preT := idx.filter (fun x => strStarts x.key key)
      let subT := idx.filter (fun x => strIncludes x.key key)
      mergeDedup limit (preT ++ subT) []

/-- One record of the XIVAPI-loaded `ITEMS` list (src/unnamed/part_000:52-57):
`zh`/`en` may be absent (`item.Name`/`item.Name_en` can be `undefined`). -/
structure CatItem where
  id : Nat
  zh : Option String
  en : Option String
deriving DecidableEq

/-- `searchItems` (src/unnamed/part_000:71-77): a flat substring filter over
`ITEMS` — `i.zh?.includes(keyword) || i.en?.toLowerCase().includes(key)` —
capped at 25.  There is no exact or startsWith tier in this variant. -/
def searchItems (items : List CatItem) (keyword : String) : List CatItem :=
  let key := strLower keyword
  (items.filter (fun i =>
    (match i.zh with
     | some z => strIncludes z keyword
     | none => false) ||
    (match i.en with
     | some e => strIncludes (strLower e) key
     | none => false))).take 25

/-! ### MarketSource / MarketAggregator: per-world variants -/

/-- What one world contributes to `fetchPrice`'s loop: the `pricePerUnit`
of `data.listings` (cheapest first) and of `data.recentHistory` (most
recent first).  A world whose fetch failed (`!res.ok` or a thrown error) is
skipped by the loop and is modelled by empty lists. -/
structure WorldData where
  listings : List Nat
  recentHistory : List Nat
deriving DecidableEq

/-- Result shape of `fetchPrice` (src/index.js:128-132). -/
structure PriceSummary where
  min : Nat
  avg : Nat
  last : Nat
deriving DecidableEq

/-- `fetchPrice` (src/index.js:112-133), with the per-world HTTP responses
supplied as input: collect the first listing price and the first
recent-sale price of each world, return `null` when no world listed, and
otherwise `min`/rounded listing mean/`lastSales[0] || prices[0]`. -/
def fetchPrice (worlds : List WorldData) : Option PriceSummary :=
  let prices := worlds.filterMap (fun w => w.listings.head?)
  let lastSales := worlds.filterMap (fun w => w.recentHistory.head?)
  match prices with
  | [] => none
  | p0 :: ps =>
    some { min := minNat (p0 :: ps),
           avg := roundMean (p0 :: ps),
           last := jsOrNat lastSales.head? p0 }

/-- The inline statistics of `sendPrice` (src/unnamed/part_000:204-234):
`prices.reduce((a, b) => a + b)` has no initial value and throws a
`TypeError` on an empty `listings` array; the surrounding `catch` then
reports 查詢失敗 (query failed).  `none` models that thrown path. -/
def sendPriceStats (prices : List Nat) : Option (Nat × Nat) :=
  match prices with
  | [] => none
  | p :: ps => some (minNat (p :: ps), roundMean (p :: ps))

/-! ### MarketAggregator: data-center variant (part_001) -/

/-- One entry of `dcMarketJson.listings` as read by `computeStats`:
`pricePerUnit`, and the possibly-absent `worldName` / `world` labels. -/
structure DcListing where
  pricePerUnit : Nat
  worldName : Option String
  world : Option String
deriving DecidableEq

/-- One entry of `dcMarketJson.recentHistory`. -/
structure DcSale where
  pricePerUnit : Nat
  quantity : Nat
  timestamp : Nat
deriving DecidableEq

/-- The fields of the Universalis v2 data-center response that
`computeStats` reads (the `Array.isArray` guards always hold here because
the model types them as lists). -/
structure DcMarket where
  listings : List DcListing
  recentHistory : List DcSale
deriving DecidableEq

/-- Result of `computeStats`. -/
structure DcStats where
  lowest : Option Nat
  cheapestWorld : Option String
  avg : Option Nat
  lastSale : Option DcSale
deriving DecidableEq

/-- `computeStats` (src/unnamed/part_001:117-147).  The
`.filter((n) => Number.isFinite(n))` steps are identity here because the
embedded prices are finite naturals. -/
def computeStats (m : DcMarket) : DcStats :=
  let lowestListing := m.listings.head?
  let lowest := lowestListing.map (fun l => l.pricePerUnit)
  let cheapestWorld :=
    match lowestListing with
    | none => none
    | some l =>
      match truthyStr l.worldName with
      | some w => some w
      | none => truthyStr l.world
  let avg :=
    match m.recentHistory with
    | h :: hs => some (roundMean ((h :: hs).map (fun x => x.pricePerUnit)))
    | [] =>
      match m.listings with
      | l :: ls => some (roundMean ((l :: ls).map (fun x => x.pricePerUnit)))
      | [] => none
  let lastSale := m.recentHistory.head?
  { lowest := lowest, cheapestWorld := cheapestWorld, avg := avg,
    lastSale := lastSale }

/-! ### Cached per-world variant (src/index.js:414-457) and the part_002
cache (src/unnamed/part_002:106-123) -/

/-- `CACHE_TTL` / `CACHE_TTL_MS`: 10 minutes, in milliseconds
(src/index.js:362, part_001:29, part_002:70). -/
def CACHE_TTL_MS : Nat := 10 * 60 * 1000

/-- Result shape of the cached `fetchPrice` (src/index.js:444-449),
including the `cached` tag. -/
structure PriceData where
  min : Nat
  avg : Nat
  last : Nat
  cached : Bool
deriving DecidableEq

/-- One `priceCache` entry (src/index.js:451-454). -/
structure PCacheEnt where
  data : PriceData
  expires : Nat
deriving DecidableEq

/-- The cached `fetchPrice` (src/index.js:414-457): key `String(itemId)`;
a non-expired hit returns `{...c.data, cached: true}` without touching the
map; an expired entry is NOT deleted — the code just falls through; a miss
re-aggregates and overwrites the entry only when some world listed. -/
def fetchPriceCached (cache : List (String × PCacheEnt)) (now : Nat)
    (itemId : Nat) (worlds : List WorldData) :
    Option PriceData × List (String × PCacheEnt) :=
  let cacheKey := toString itemId
  let hit : Option PriceData :=
    match aget cache cacheKey with
    | some c => if c.expires > now then some { c.data with cached := true } else none
    | none => none
  match hit with
  | some d => (some d, cache)
  | none =>
    let prices := worlds.filterMap (fun w => w.listings.head?)
    let lastSales := worlds.filterMap (fun w => w.recentHistory.head?)
    match prices with
    | [] => (none, cache)
    | p0 :: ps =>
      let result : PriceData :=
        { min := minNat (p0 :: ps), avg := roundMean (p0 :: ps),
          last := jsOrNat lastSales.head? p0, cached := false }
      (some result, aset cache cacheKey { data := result, expires := now + CACHE_TTL_MS })

/-- One `cache` entry of part_002 (src/unnamed/part_002:121). -/
structure MCacheEnt where
  data : DcMarket
  expire : Nat
deriving DecidableEq

/-- `fetchMarket` (src/unnamed/part_002:106-123): the cache is keyed by the
raw `itemId`; `fresh` stands for the successfully fetched and parsed
response body (the `!res.ok` throw is outside this success-path model). -/
def fetchMarket (cache : List (Nat × MCacheEnt)) (now : Nat) (itemId : Nat)
    (fresh : DcMarket) : DcMarket × List (Nat × MCacheEnt) :=
  let hit : Option DcMarket :=
    match aget cache itemId with
    | some c => if c.expire > now then some c.data else none
    | none => none
  match hit with
  | some d => (d, cache)
  | none => (fresh, aset cache itemId { data := fresh, expire := now + CACHE_TTL_MS })

/-! ### Resolver (part_001) -/

/-- One record of the Universalis `marketable` search response. -/
structure SearchHit where
  itemId : Nat
  itemName : String
deriving DecidableEq

/-- The `norm` helper inside `resolveItemIdByName`
(src/unnamed/part_001:94): strip whitespace, then lower-case. -/
def resolverNorm (s : String) : String := strLower (jsStripWs s)

/-- `resolveItemIdByName` (src/unnamed/part_001:82-101) with the search
response supplied as input: trim the query, return `null` on no results,
prefer the hit whose normalized name equals the normalized query, fall back
to the first hit, and return `{itemId, itemName: best.itemName || q}`. -/
def resolveItemIdByName (itemName : String) (results : List SearchHit) :
    Option (Nat × String) :=
  let q := strTrim itemName
  match results with
  | [] => none
  | r0 :: _ =>
    let target := resolverNorm q
    let best :=
      match results.find? (fun r => resolverNorm r.itemName == target) with
      | some b => b
      | none => r0
    some (best.itemId, if best.itemName = "" then q else best.itemName)

/-- The cache / in-flight key of `queryTchwPrice`
(src/unnamed/part_001:153): built from the RAW item name, lower-cased —
not from the resolved item id. -/
def tchwKey (itemName : String) : String := strLower ("tchw:" ++ itemName)

/-! ### QueryCoordinator: `queryTchwPrice` (src/unnamed/part_001:152-190)

JS is single-threaded: a `query` call runs atomically from its entry to the
first `await`, and the aggregation promise `p` settles atomically together
with the `setCache` call that (on the ok path) immediately precedes its
resolution.  The owner's `finally { inflight.delete(key) }` runs as a
microtask at settlement, before any other macrotask (in particular before
any further `query` call) can observe the maps, so the model folds the
unconditional delete into the settlement events.  The machine below has one
event per such atomic block; an arbitrary event list is an arbitrary
interleaving of concurrent callers. -/

/-- The value a settled aggregation delivers: `{ok: false, reason:
'not_found'}` (not cached) or the ok record (cached). -/
inductive QOutcome where
  | notFound
  | found (itemId : Nat) (itemName : String) (stats : DcStats)
deriving DecidableEq

/-- What a caller of `queryTchwPrice` receives: the outcome plus the
`fromCache` / `sharedInflight` tags added by the three return paths. -/
structure QReply where
  out : QOutcome
  fromCache : Bool
  sharedInflight : Bool
deriving DecidableEq

/-- Status of one aggregation promise `p`. -/
inductive AggStatus where
  | running
  | resolvedOk (itemId : Nat) (itemName : String) (stats : DcStats)
  | resolvedNotFound
  | rejected
deriving DecidableEq

/-- One aggregation: its key and the status of its promise. -/
structure AggRec where
  key : String
  status : AggStatus
deriving DecidableEq

/-- Where one caller of `queryTchwPrice` currently is.  `awaitOwn n` is the
owner awaiting the promise it registered (aggregation `n`); `awaitShared n`
is a caller awaiting a promise found in the in-flight map; `errored` means
its `await` re-threw the aggregation's rejection. -/
inductive CallerPhase where
  | start
  | awaitOwn (n : Nat)
  | awaitShared (n : Nat)
  | done (r : QReply)
  | errored
deriving DecidableEq

structure CallerSt where
  key : String
  phase : CallerPhase
deriving DecidableEq

/-- The coordinator's shared state.  Aggregation `n` is `aggs[n]`; the next
fresh aggregation id is `aggs.length`.  Caller `i` is `callers[i]`. -/
structure CoordState where
  cache : List (String × (QOutcome × Nat))
  inflight : List (String × Nat)
  aggs : List AggRec
  callers : List CallerSt
  now : Nat
deriving DecidableEq

/-- `getCache` (src/unnamed/part_001:33-41): a hit past its `expiresAt` is
deleted and reported as a miss; a live hit is returned unchanged. -/
def getCache (cache : List (String × (QOutcome × Nat))) (key : String)
    (now : Nat) : Option QOutcome × List (String × (QOutcome × Nat)) :=
  match aget cache key with
  | none => (none, cache)
  | some (v, expiresAt) =>
    if now > expiresAt then (none, adel cache key) else (some v, cache)

/-- `setCache` (src/unnamed/part_001:42-44). -/
def setCache (cache : List (String × (QOutcome × Nat))) (key : String)
    (value : QOutcome) (now : Nat) : List (String × (QOutcome × Nat)) :=
  aset cache key (value, now + CACHE_TTL_MS)

/-- The atomic blocks of `queryTchwPrice` and of its aggregation promise:
`callerStart i` is the synchronous entry of caller `i` (cache lookup,
in-flight lookup, and on a double miss the registration of a fresh
aggregation); `settleOk`/`settleNotFound`/`settleThrow` settle aggregation
`n` (folding in `setCache` on the ok path and the owner's unconditional
`finally { inflight.delete(key) }`); `ownerResume`/`sharedResume` are the
callers' continuations after their `await`; `tick` lets time pass. -/
inductive CoordEv where
  | callerStart (i : Nat)
  | settleOk (n : Nat) (itemId : Nat) (itemName : String) (stats : DcStats)
  | settleNotFound (n : Nat)
  | settleThrow (n : Nat)
  | ownerResume (i : Nat)
  | sharedResume (i : Nat)
  | tick (d : Nat)
deriving DecidableEq

/-- One atomic step of the coordinator; `none` when the event is not
enabled in `s`. -/
def step (e : CoordEv) (s : CoordState) : Option CoordState :=
  match e with
  | .tick d => some { s with now := s.now + d }
  | .callerStart i =>
    match s.callers[i]? with
    | some ⟨k, .start⟩ =>
      let gc := getCache s.cache k s.now
      match gc.1 with
      | some v =>
        some { s with
               cache := gc.2,
               callers := s.callers.set i ⟨k, .done ⟨v, true, false⟩⟩ }
      | none =>
        match aget s.inflight k with
        | some n =>
          some { s with
                 cache := gc.2,
                 callers := s.callers.set i ⟨k, .awaitShared n⟩ }
        | none =>
          some { s with
                 cache := gc.2,
                 aggs := s.aggs ++ [⟨k, .running⟩],
                 inflight := aset s.inflight k s.aggs.length,
                 callers := s.callers.set i ⟨k, .awaitOwn s.aggs.length⟩ }
    | _ => none
  | .settleOk n itemId itemName stats =>
    match s.aggs[n]? with
    | some ⟨k, .running⟩ =>
      some { s with
             aggs := s.aggs.set n ⟨k, .resolvedOk itemId itemName stats⟩,
             cache := setCache s.cache k (.found itemId itemName stats) s.now,
             inflight := adel s.inflight k }
    | _ => none
  | .settleNotFound n =>
    match s.aggs[n]? with
    | some ⟨k, .running⟩ =>
      some { s with
             aggs := s.aggs.set n ⟨k, .resolvedNotFound⟩,
             inflight := adel s.inflight k }
    | _ => none
  | .settleThrow n =>
    match s.aggs[n]? with
    | some ⟨k, .running⟩ =>
      some { s with
             aggs := s.aggs.set n ⟨k, .rejected⟩,
             inflight := adel s.inflight k }
    | _ => none
  | .ownerResume i =>
    match s.callers[i]? with
    | some ⟨k, .awaitOwn n⟩ =>
      match s.aggs[n]? with
      | some ⟨_, .resolvedOk itemId itemName stats⟩ =>
        some { s with
               callers := s.callers.set i
                 ⟨k, .done ⟨.found itemId itemName stats, false, false⟩⟩ }
      | some ⟨_, .resolvedNotFound⟩ =>
        some { s with
               callers := s.callers.set i ⟨k, .done ⟨.notFound, false, false⟩⟩ }
      | some ⟨_, .rejected⟩ =>
        some { s with callers := s.callers.set i ⟨k, .errored⟩ }
      | _ => none
    | _ => none
  | .sharedResume i =>
    match s.callers[i]? with
    | some ⟨k, .awaitShared n⟩ =>
      match s.aggs[n]? with
      | some ⟨_, .resolvedOk itemId itemName stats⟩ =>
        some { s with
               callers := s.callers.set i
                 ⟨k, .done ⟨.found itemId itemName stats, true, true⟩⟩ }
      | some ⟨_, .resolvedNotFound⟩ =>
        some { s with
               callers := s.callers.set i ⟨k, .done ⟨.notFound, true, true⟩⟩ }
      | some ⟨_, .rejected⟩ =>
        some { s with callers := s.callers.set i ⟨k, .errored⟩ }
      | _ => none
    | _ => none

/-- Run a list of events from a state. -/
def run (s : CoordState) : List CoordEv → Option CoordState
  | [] => some s
  | e :: tr =>
    match step e s with
    | some s' => run s' tr
    | none => none

/-- Two fresh callers (indices 0 and 1) with keys `k1` and `k2`, empty
cache and in-flight maps, at time `t`. -/
def initTwoKeys (k1 k2 : String) (t : Nat) : CoordState :=
  { cache := [], inflight := [], aggs := [],
    callers := [⟨k1, .start⟩, ⟨k2, .start⟩], now := t }

/-- The coordinator's structural invariant: the in-flight map and the
running aggregations register each other exactly. -/
structure INV (s : CoordState) : Prop where
  reg : ∀ k n, aget s.inflight k = some n →
    ∃ a, s.aggs[n]? = some a ∧ a.key = k ∧ a.status = .running
  bak : ∀ n a, s.aggs[n]? = some a → a.status = .running →
    aget s.inflight a.key = some n

/-! ### Concurrent model of the cached `fetchPrice` (src/index.js:414-457)

The cached per-world variant has no in-flight map: a caller checks the
cache synchronously and then suspends inside the per-world fetch loop.
Two events per caller: the synchronous entry (cache check) and the
completion of the whole world loop (which writes the cache). -/

/-- Where one caller of the cached `fetchPrice` is. -/
inductive FPhase where
  | start
  | fetching
  | done (r : PriceData)
  | doneNone
deriving DecidableEq

structure FCaller where
  itemId : Nat
  phase : FPhase
deriving DecidableEq

/-- State for interleaved `fetchPrice` calls; `passes` counts completed
world-loop aggregation passes. -/
structure FState where
  cache : List (String × PCacheEnt)
  callers : List FCaller
  now : Nat
  passes : Nat
deriving DecidableEq

inductive FEv where
  | enter (i : Nat)
  | complete (i : Nat) (worlds : List WorldData)
  | tick (d : Nat)
deriving DecidableEq

/-- One atomic step of the concurrent cached `fetchPrice` model.  `enter`
is lines 415-421 (cache probe), `complete` is the end of the world loop,
lines 423-456 (statistics, cache write, return). -/
def stepF (e : FEv) (s : FState) : Option FState :=
  match e with
  | .tick d => some { s with now := s.now + d }
  | .enter i =>
    match s.callers[i]? with
    | some ⟨itemId, .start⟩ =>
      let hit : Option PriceData :=
        match aget s.cache (toString itemId) with
        | some c => if c.expires > s.now then some { c.data with cached := true } else none
        | none => none
      match hit with
      | some d => some { s with callers := s.callers.set i ⟨itemId, .done d⟩ }
      | none => some { s with callers := s.callers.set i ⟨itemId, .fetching⟩ }
    | _ => none
  | .complete i worlds =>
    match s.callers[i]? with
    | some ⟨itemId, .fetching⟩ =>
      let prices := worlds.filterMap (fun w => w.listings.head?)
      let lastSales := worlds.filterMap (fun w => w.recentHistory.head?)
      match prices with
      | [] => some { s with
                     callers := s.callers.set i ⟨itemId, .doneNone⟩,
                     passes := s.passes + 1 }
      | p0 :: ps =>
        let result : PriceData :=
          { min := minNat (p0 :: ps), avg := roundMean (p0 :: ps),
            last := jsOrNat lastSales.head? p0, cached := false }
        some { s with
               callers := s.callers.set i ⟨itemId, .done result⟩,
               cache := aset s.cache (toString itemId)
                 { data := result, expires := s.now + CACHE_TTL_MS },
               passes := s.passes + 1 }
    | _ => none

/-- Run a list of events on the cached-`fetchPrice` model. -/
def runF (s : FState) : List FEv → Option FState
  | [] => some s
  | e :: tr =>
    match stepF e s with
    | some s' => runF s' tr
    | none => none

/-- Two fresh concurrent callers of the cached `fetchPrice`, both asking
for `itemId`, with an empty cache. -/
def initF2 (itemId : Nat) (t : Nat) : FState :=
  { cache := [], callers := [⟨itemId, .start⟩, ⟨itemId, .start⟩], now := t,
    passes := 0 }

/-! ### Coordinator invariant lemmas -/

/-- A one-element list read above index zero is empty. -/
theorem append_single_cases {α : Type} {l : List α} {x a : α} {n : Nat}
    (h : (l ++ [x])[n]? = some a) :
    (n < l.length ∧ l[n]? = some a) ∨ (n = l.length ∧ a = x) := by
  by_cases hn : n < l.length
  · exact Or.inl ⟨hn, by rwa [List.getElem?_append_left hn] at h⟩
  · have hle : l.length ≤ n := Nat.le_of_not_lt hn
    rw [List.getElem?_append_right hle] at h
    right
    cases hm : n - l.length with
    | zero =>
      rw [hm] at h
      simp at h
      exact ⟨Nat.le_antisymm (Nat.sub_eq_zero_iff_le.mp hm) hle, h.symm⟩
    | succ m =>
      rw [hm] at h
      simp at h

/-- The invariant only mentions `inflight` and `aggs`. -/
theorem INV.congr {s s' : CoordState} (hI : INV s)
    (hif : s'.inflight = s.inflight) (hag : s'.aggs = s.aggs) : INV s' := by
  constructor
  · intro k n h
    rw [hif] at h
    rw [hag]
    exact hI.reg k n h
  · intro n a h hr
    rw [hag] at h
    rw [hif]
    exact hI.bak n a h hr

/-- The fresh initial state satisfies the invariant. -/
theorem inv_init (k1 k2 : String) (t : Nat) : INV (initTwoKeys k1 k2 t) := by
  constructor
  · intro k n h
    simp [initTwoKeys, aget] at h
  · intro n a h hr
    simp [initTwoKeys] at h

/-- Settling a running aggregation (any outcome) preserves the invariant:
the aggregation stops running and its in-flight registration is removed. -/
theorem inv_settle_core {s : CoordState} (hI : INV s) {n : Nat} {k : String}
    (ha : s.aggs[n]? = some ⟨k, .running⟩) (st' : AggStatus)
    (hst : ¬ st' = AggStatus.running)
    (cache' : List (String × (QOutcome × Nat))) (now' : Nat) :
    INV { s with
          aggs := s.aggs.set n ⟨k, st'⟩,
          cache := cache',
          now := now',
          inflight := adel s.inflight k } := by
  have hlt : n < s.aggs.length := by
    rcases List.getElem?_eq_some.mp ha with ⟨hlt, _⟩
    exact hlt
  constructor
  · intro k' m hk'
    by_cases hkk : k' = k
    · subst hkk
      rw [aget_adel_self] at hk'
      exact absurd hk' (by simp)
    · rw [aget_adel_of_ne _ _ _ hkk] at hk'
      obtain ⟨a, ha', hak, har⟩ := hI.reg k' m hk'
      have hmn : n ≠ m := by
        intro hmn
        subst hmn
        rw [ha] at ha'
        simp only [Option.some.injEq] at ha'
        rw [← ha'] at hak
        exact hkk hak.symm
      exact ⟨a, by rw [List.getElem?_set_ne hmn]; exact ha', hak, har⟩
  · intro m a ha' har
    by_cases hmn : m = n
    · subst hmn
      have hx : (s.aggs.set m ⟨k, st'⟩)[m]? = some ⟨k, st'⟩ := by
        simp [List.getElem?_set_self, hlt]
      rw [hx] at ha'
      simp only [Option.some.injEq] at ha'
      rw [← ha'] at har
      exact absurd har hst
    · rw [List.getElem?_set_ne (fun hh => hmn hh.symm)] at ha'
      have hb := hI.bak m a ha' har
      have hak : ¬ a.key = k := by
        intro hk
        have hbn := hI.bak n ⟨k, .running⟩ ha rfl
        rw [hk] at hb
        rw [hb] at hbn
        simp only [Option.some.injEq] at hbn
        exact hmn hbn
      rw [aget_adel_of_ne _ _ _ hak]
      exact hb

/-- Every enabled step preserves the invariant. -/
theorem inv_step {e : CoordEv} {s s' : CoordState} (hI : INV s)
    (h : step e s = some s') : INV s' := by
  cases e with
  | tick d =>
    simp only [step, Option.some.injEq] at h
    exact hI.congr (by rw [← h]) (by rw [← h])
  | callerStart i =>
    simp only [step] at h
    split at h
    · rename_i k heq
      split at h
      · rename_i v hg
        simp only [Option.some.injEq] at h
        exact hI.congr (by rw [← h]) (by rw [← h])
      · rename_i hg
        split at h
        · rename_i n hf
          simp only [Option.some.injEq] at h
          exact hI.congr (by rw [← h]) (by rw [← h])
        · rename_i hf
          simp only [Option.some.injEq] at h
          subst h
          constructor
          · intro k' n hk'
            by_cases hkk : k' = k
            · subst hkk
              rw [aget_aset_self] at hk'
              simp only [Option.some.injEq] at hk'
              subst hk'
              exact ⟨⟨k', .running⟩, List.getElem?_concat_length _ _, rfl, rfl⟩
            · rw [aget_aset_of_ne _ _ _ _ hkk] at hk'
              obtain ⟨a, ha, hak, har⟩ := hI.reg k' n hk'
              have hlt : n < s.aggs.length := by
                rcases List.getElem?_eq_some.mp ha with ⟨hlt, _⟩
                exact hlt
              exact ⟨a, by rw [List.getElem?_append_left hlt]; exact ha, hak, har⟩
          · intro n a ha har
            rcases append_single_cases ha with ⟨hlt, ha'⟩ | ⟨hn, hax⟩
            · have hb := hI.bak n a ha' har
              have hak : ¬ a.key = k := by
                intro hk
                rw [hk] at hb
                rw [hf] at hb
                exact absurd hb (by simp)
              rw [aget_aset_of_ne _ _ _ _ hak]
              exact hb
            · subst hax
              subst hn
              exact aget_aset_self _ _ _
    · simp at h
  | settleOk n itemId itemName stats =>
    simp only [step] at h
    split at h
    · rename_i k heq
      simp only [Option.some.injEq] at h
      subst h
      exact inv_settle_core hI heq _ (by simp) _ _
    · simp at h
  | settleNotFound n =>
    simp only [step] at h
    split at h
    · rename_i k heq
      simp only [Option.some.injEq] at h
      subst h
      exact inv_settle_core hI heq _ (by simp) _ _
    · simp at h
  | settleThrow n =>
    simp only [step] at h
    split at h
    · rename_i k heq
      simp only [Option.some.injEq] at h
      subst h
      exact inv_settle_core hI heq _ (by simp) _ _
    · simp at h
  | ownerResume i =>
    simp only [step] at h
    split at h
    · split at h <;>
        first
          | (simp only [Option.some.injEq] at h
             exact hI.congr (by rw [← h]) (by rw [← h]))
          | exact hI.congr (by rw [← h]) (by rw [← h])
          | simp at h
    · simp at h
  | sharedResume i =>
    simp only [step] at h
    split at h
    · split at h <;>
        first
          | (simp only [Option.some.injEq] at h
             exact hI.congr (by rw [← h]) (by rw [← h]))
          | exact hI.congr (by rw [← h]) (by rw [← h])
          | simp at h
    · simp at h

/-- The invariant holds in every reachable state. -/
theorem inv_run {s c : CoordState} {tr : List CoordEv} (hI : INV s)
    (h : run s tr = some c) : INV c := by
  induction tr generalizing s with
  | nil =>
    simp only [run, Option.some.injEq] at h
    exact hI.congr (by rw [← h]) (by rw [← h])
  | cons e tr ih =>
    simp only [run] at h
    cases hs : step e s with
    | none => rw [hs] at h; exact absurd h (by simp)
    | some s' =>
      rw [hs] at h
      exact ih (inv_step hI hs) h

/-! ### Lemmas about the merge/de-duplicate/cap loop of `findItems` -/

theorem mergeDedup_sublist (l : List IndexEntry) :
    ∀ (limit : Nat) (seen : List Nat), List.Sublist (mergeDedup limit l seen) l := by
  induction l with
  | nil => intro limit seen; simp [mergeDedup]
  | cons x xs ih =>
    intro limit seen
    simp only [mergeDedup]
    by_cases hx : x.id ∈ seen
    · rw [if_pos hx]
      exact List.Sublist.cons x (ih _ _)
    · rw [if_neg hx]
      by_cases hl : limit ≤ 1
      · rw [if_pos hl]
        exact List.Sublist.cons₂ x (List.nil_sublist xs)
      · rw [if_neg hl]
        exact List.Sublist.cons₂ x (ih _ _)

theorem mem_mergeDedup_not_seen {l : List IndexEntry} :
    ∀ {limit : Nat} {seen : List Nat} {y : IndexEntry},
      y ∈ mergeDedup limit l seen → y.id ∉ seen := by
  induction l with
  | nil => intro limit seen y hy; simp [mergeDedup] at hy
  | cons x xs ih =>
    intro limit seen y hy
    simp only [mergeDedup] at hy
    by_cases hx : x.id ∈ seen
    · rw [if_pos hx] at hy
      exact ih hy
    · rw [if_neg hx] at hy
      by_cases hl : limit ≤ 1
      · rw [if_pos hl] at hy
        simp only [List.mem_singleton] at hy
        subst hy
        exact hx
      · rw [if_neg hl] at hy
        rcases List.mem_cons.mp hy with rfl | hy'
        · exact hx
        · intro hmem
          exact ih hy' (List.mem_cons_of_mem _ hmem)

theorem mergeDedup_nodup (l : List IndexEntry) :
    ∀ (limit : Nat) (seen : List Nat),
      ((mergeDedup limit l seen).map (fun x => x.id)).Nodup := by
  induction l with
  | nil => intro limit seen; simp [mergeDedup]
  | cons x xs ih =>
    intro limit seen
    simp only [mergeDedup]
    by_cases hx : x.id ∈ seen
    · rw [if_pos hx]
      exact ih _ _
    · rw [if_neg hx]
      by_cases hl : limit ≤ 1
      · rw [if_pos hl]
        simp
      · rw [if_neg hl]
        simp only [List.map_cons, List.nodup_cons]
        refine ⟨?_, ih _ _⟩
        intro hmem
        rcases List.mem_map.mp hmem with ⟨y, hy, hid⟩
        exact mem_mergeDedup_not_seen hy (by rw [hid]; exact List.mem_cons_self _ _)

theorem mergeDedup_length_le (l : List IndexEntry) :
    ∀ (limit : Nat) (seen : List Nat), 1 ≤ limit →
      (mergeDedup limit l seen).length ≤ limit := by
  induction l with
  | nil => intro limit seen _; simp [mergeDedup]
  | cons x xs ih =>
    intro limit seen hlim
    simp only [mergeDedup]
    by_cases hx : x.id ∈ seen
    · rw [if_pos hx]
      exact ih _ _ hlim
    · rw [if_neg hx]
      by_cases hl : limit ≤ 1
      · rw [if_pos hl]
        simpa using hlim
      · rw [if_neg hl]
        simp only [List.length_cons]
        have h2 := ih (limit - 1) (x.id :: seen) (by omega)
        omega

theorem mergeDedup_all_not_p (p : IndexEntry → Bool) (l2 : List IndexEntry)
    (limit : Nat) (seen : List Nat)
    (hcond : ∀ y ∈ l2, p y = true → y.id ∈ seen) :
    ∀ y ∈ mergeDedup limit l2 seen, p y = false := by
  intro y hy
  have h1 := mem_mergeDedup_not_seen hy
  have h2 : y ∈ l2 := (mergeDedup_sublist l2 limit seen).subset hy
  cases hp : p y
  · rfl
  · exact absurd (hcond y h2 hp) h1

/-- Walking `l1 ++ l2` where every `l1` element satisfies `p` and every
`p`-element of `l2` duplicates an id of `l1` (or is already seen) yields a
`p`-block followed by a `not p`-block. -/
theorem mergeDedup_tier (p : IndexEntry → Bool) :
    ∀ (l1 l2 : List IndexEntry) (limit : Nat) (seen : List Nat),
      (∀ x ∈ l1, p x = true) →
      (∀ y ∈ l2, p y = true → y.id ∈ seen ∨ y.id ∈ l1.map (fun x => x.id)) →
      ∃ A B, mergeDedup limit (l1 ++ l2) seen = A ++ B ∧
        (∀ x ∈ A, p x = true) ∧ (∀ y ∈ B, p y = false) := by
  intro l1
  induction l1 with
  | nil =>
    intro l2 limit seen _ h2
    refine ⟨[], mergeDedup limit l2 seen, by simp, by simp, ?_⟩
    exact mergeDedup_all_not_p p l2 limit seen
      (fun y hy hp => (h2 y hy hp).resolve_right (by simp))
  | cons x xs ih =>
    intro l2 limit seen h1 h2
    simp only [List.cons_append, mergeDedup]
    by_cases hx : x.id ∈ seen
    · rw [if_pos hx]
      refine ih l2 limit seen (fun z hz => h1 z (List.mem_cons_of_mem _ hz)) ?_
      intro y hy hp
      rcases h2 y hy hp with hs | hm
      · exact Or.inl hs
      · simp only [List.map_cons, List.mem_cons] at hm
        rcases hm with hEq | hm'
        · exact Or.inl (hEq ▸ hx)
        · exact Or.inr hm'
    · rw [if_neg hx]
      by_cases hl : limit ≤ 1
      · rw [if_pos hl]
        exact ⟨[x], [], rfl,
          by simpa using h1 x (List.mem_cons_self _ _), by simp⟩
      · rw [if_neg hl]
        have hcond : ∀ y ∈ l2, p y = true →
            y.id ∈ x.id :: seen ∨ y.id ∈ xs.map (fun x => x.id) := by
          intro y hy hp
          rcases h2 y hy hp with hs | hm
          · exact Or.inl (List.mem_cons_of_mem _ hs)
          · simp only [List.map_cons, List.mem_cons] at hm
            rcases hm with hEq | hm'
            · exact Or.inl (hEq ▸ List.mem_cons_self _ _)
            · exact Or.inr hm'
        obtain ⟨A, B, hAB, hA, hB⟩ := ih l2 (limit - 1) (x.id :: seen)
          (fun z hz => h1 z (List.mem_cons_of_mem _ hz)) hcond
        refine ⟨x :: A, B, congrArg (List.cons x) hAB, ?_, hB⟩
        intro z hz
        rcases List.mem_cons.mp hz with rfl | hz'
        · exact h1 z (List.mem_cons_self _ _)
        · exact hA z hz'

/-! ### Claim C1: average-price selection -/

/-- C1 counterexample: the claim says that when some origin reported a
recent sale the average is the rounded mean of the recent-sale prices; but
`fetchPrice` (src/index.js:112-133) always averages the listing prices.
With one world listing at 200 whose last sale was 80, the code reports an
average of 200, not `roundMean [80] = 80`. -/
theorem C1_counterexample :
    (fetchPrice [⟨[200], [80]⟩]).map (fun r => r.avg) = some 200 ∧
    ¬ (fetchPrice [⟨[200], [80]⟩]).map (fun r => r.avg) =
        some (roundMean [80]) := by
  decide

/-- C1 (amended): in `computeStats` (part_001) the average prefers the
rounded mean of the recent-sale prices and falls back to the rounded mean
of the listing prices only when there is no recent sale; in the per-world
`fetchPrice` variants (src/index.js:112-133 and 442-457) the average is
always the rounded mean of the collected lowest listing prices, regardless
of recent sales. -/
theorem C1_avg_rule :
    (∀ (ls : List DcListing) (h : DcSale) (hs : List DcSale),
      (computeStats ⟨ls, h :: hs⟩).avg =
        some (roundMean ((h :: hs).map (fun x => x.pricePerUnit)))) ∧
    (∀ (l : DcListing) (ls : List DcListing),
      (computeStats ⟨l :: ls, []⟩).avg =
        some (roundMean ((l :: ls).map (fun x => x.pricePerUnit)))) ∧
    (∀ (worlds : List WorldData) (p0 : Nat) (ps : List Nat),
      worlds.filterMap (fun w => w.listings.head?) = p0 :: ps →
      (fetchPrice worlds).map (fun r => r.avg) = some (roundMean (p0 :: ps))) := by
  refine ⟨?_, ?_, ?_⟩
  · intro ls h hs
    simp [computeStats]
  · intro l ls
    simp [computeStats]
  · intro worlds p0 ps hp
    simp [fetchPrice, hp]

/-- C1 witness: concrete instance of the amended average rule. -/
theorem C1_witness :
    (computeStats ⟨[⟨200, none, none⟩], [⟨80, 1, 10⟩]⟩).avg =
      some (roundMean [80]) ∧
    (fetchPrice [⟨[90], []⟩, ⟨[110], []⟩]).map (fun r => r.avg) =
      some (roundMean [90, 110]) :=
  ⟨C1_avg_rule.1 [⟨200, none, none⟩] ⟨80, 1, 10⟩ [],
   C1_avg_rule.2.2 [⟨[90], []⟩, ⟨[110], []⟩] 90 [110] (by decide)⟩

/-! ### Claim C4: all-origins-empty behaviour -/

/-- C4 counterexample: the claim says that whenever no origin returns a
listing both `lowestPricePerUnit` and `averagePricePerUnit` are null; but
`computeStats` (part_001:117-147) computes the average from
`recentHistory` when it is non-empty even with zero listings: with no
listing and one recent sale of 50, the average is 50, not null. -/
theorem C4_counterexample :
    (computeStats ⟨[], [⟨50, 1, 1000⟩]⟩).lowest = none ∧
    (computeStats ⟨[], [⟨50, 1, 1000⟩]⟩).avg = some 50 ∧
    ¬ (computeStats ⟨[], [⟨50, 1, 1000⟩]⟩).avg = none := by
  decide

/-- C4 (amended): when no origin returns a listing, `computeStats` still
succeeds (it is total) with `lowest = null` and no cheapest world; its
average is null only when the recent history is empty too, and otherwise
is the rounded mean of the recent-sale prices.  The per-world `fetchPrice`
returns an overall `null` ("no market data") in that case, and the
part_000 `sendPrice` statistics throw on an empty listings array (the
caller reports a failure). -/
theorem C4_no_listing :
    (∀ hs : List DcSale, (computeStats ⟨[], hs⟩).lowest = none ∧
       (computeStats ⟨[], hs⟩).cheapestWorld = none) ∧
    (computeStats ⟨[], []⟩).avg = none ∧
    (∀ (h : DcSale) (hs : List DcSale),
       (computeStats ⟨[], h :: hs⟩).avg =
         some (roundMean ((h :: hs).map (fun x => x.pricePerUnit)))) ∧
    (∀ worlds : List WorldData,
       worlds.filterMap (fun w => w.listings.head?) = [] →
       fetchPrice worlds = none) ∧
    sendPriceStats [] = none := by
  refine ⟨?_, by decide, ?_, ?_, by decide⟩
  · intro hs
    exact ⟨rfl, rfl⟩
  · intro h hs
    simp [computeStats]
  · intro worlds hp
    simp [fetchPrice, hp]

/-- C4 witness: concrete instance of the amended all-origins-empty rule. -/
theorem C4_witness :
    ((computeStats ⟨[], []⟩).lowest = none ∧
      (computeStats ⟨[], []⟩).cheapestWorld = none) ∧
    fetchPrice [⟨[], [5]⟩, ⟨[], []⟩] = none :=
  ⟨C4_no_listing.1 [],
   C4_no_listing.2.2.2.1 [⟨[], [5]⟩, ⟨[], []⟩] (by decide)⟩

/-! ### Claim C7: zero prices -/

/-- C7 counterexample: the claim says a most-recent-sale price of 0 is
reported as the most recent sale; but `fetchPrice` computes
`last: lastSales[0] || prices[0]`, and `0` is falsy in JS, so a 0-valued
sale is replaced by the first listing price (200 here). -/
theorem C7_counterexample :
    fetchPrice [⟨[200], [0]⟩] = some ⟨200, 200, 200⟩ ∧
    ¬ (fetchPrice [⟨[200], [0]⟩]).map (fun r => r.last) = some 0 := by
  decide

/-- C7 (amended): `computeStats` keeps a 0-valued price as a present
reading (its `?? null` / direct field reads do not treat 0 as absent), but
the per-world `fetchPrice` variants use `lastSales[0] || prices[0]`, so a
0-valued most-recent-sale price is treated as falsy and replaced by the
first listing price. -/
theorem C7_zero_price :
    (∀ (w w2 : Option String) (ls : List DcListing) (hs : List DcSale),
       (computeStats ⟨⟨0, w, w2⟩ :: ls, hs⟩).lowest = some 0) ∧
    (∀ (q t : Nat) (ls : List DcListing) (hs : List DcSale),
       (computeStats ⟨ls, ⟨0, q, t⟩ :: hs⟩).lastSale = some ⟨0, q, t⟩) ∧
    (∀ (worlds : List WorldData) (p0 : Nat) (ps : List Nat),
       worlds.filterMap (fun w => w.listings.head?) = p0 :: ps →
       (worlds.filterMap (fun w => w.recentHistory.head?)).head? = some 0 →
       (fetchPrice worlds).map (fun r => r.last) = some p0) := by
  refine ⟨?_, ?_, ?_⟩
  · intro w w2 ls hs
    rfl
  · intro q t ls hs
    rfl
  · intro worlds p0 ps hp hs
    simp [fetchPrice, hp, hs, jsOrNat]

/-- C7 witness: concrete instance of the amended zero-price rule. -/
theorem C7_witness :
    (computeStats ⟨[⟨0, none, none⟩], []⟩).lowest = some 0 ∧
    (computeStats ⟨[], [⟨0, 2, 9⟩]⟩).lastSale = some ⟨0, 2, 9⟩ ∧
    (fetchPrice [⟨[200], [0]⟩]).map (fun r => r.last) = some 200 :=
  ⟨C7_zero_price.1 none none [] [],
   C7_zero_price.2.1 2 9 [] [],
   C7_zero_price.2.2 [⟨[200], [0]⟩] 200 [] (by decide) (by decide)⟩

/-! ### Claim C10: listing price reported as last sale -/

/-- C10: in the per-world variants (src/index.js:112-133 and 442-457),
when at least one world listed but none reported a recent sale, the `last`
field equals the first successful world's lowest listing price
(`lastSales[0] || prices[0]`) instead of being absent. -/
theorem C10_last_fallback :
    (∀ (worlds : List WorldData) (p0 : Nat) (ps : List Nat),
       worlds.filterMap (fun w => w.listings.head?) = p0 :: ps →
       worlds.filterMap (fun w => w.recentHistory.head?) = [] →
       fetchPrice worlds = some ⟨minNat (p0 :: ps), roundMean (p0 :: ps), p0⟩) ∧
    (∀ (now itemId : Nat) (worlds : List WorldData) (p0 : Nat) (ps : List Nat),
       worlds.filterMap (fun w => w.listings.head?) = p0 :: ps →
       worlds.filterMap (fun w => w.recentHistory.head?) = [] →
       (fetchPriceCached [] now itemId worlds).1 =
         some ⟨minNat (p0 :: ps), roundMean (p0 :: ps), p0, false⟩) := by
  constructor
  · intro worlds p0 ps hp hs
    simp [fetchPrice, hp, hs, jsOrNat]
  · intro now itemId worlds p0 ps hp hs
    simp [fetchPriceCached, aget, hp, hs, jsOrNat]

/-- C10 witness: two worlds list at 120 and 100, none reports a sale; the
summary presents 120 (the first world's lowest listing) as the last sale. -/
theorem C10_witness :
    fetchPrice [⟨[120], []⟩, ⟨[100], []⟩] =
      some ⟨minNat [120, 100], roundMean [120, 100], 120⟩ ∧
    (fetchPriceCached [] 0 7 [⟨[120], []⟩, ⟨[100], []⟩]).1 =
      some ⟨minNat [120, 100], roundMean [120, 100], 120, false⟩ :=
  ⟨C10_last_fallback.1 [⟨[120], []⟩, ⟨[100], []⟩] 120 [100] (by decide) (by decide),
   C10_last_fallback.2 0 7 [⟨[120], []⟩, ⟨[100], []⟩] 120 [100] (by decide) (by decide)⟩

/-! ### Claim C5: exact-match tier -/

/-- C5 counterexample: the claim says that whenever an exact match exists
only exact matches are returned; but `searchItems`
(src/unnamed/part_000:71-77) is a flat substring filter with no exact
tier: for the keyword "iron" it returns the exact entry together with the
substring-only entry "ironbar". -/
theorem C5_counterexample :
    searchItems [⟨1, none, some "iron"⟩, ⟨2, none, some "ironbar"⟩] "iron" =
      [⟨1, none, some "iron"⟩, ⟨2, none, some "ironbar"⟩] ∧
    ¬ ∀ y ∈ searchItems [⟨1, none, some "iron"⟩, ⟨2, none, some "ironbar"⟩]
        "iron", y.en = some "iron" := by
  decide

/-- C5 (amended): in `findItems` (src/index.js:83-102), if the normalized
keyword is non-empty and exactly equals the `searchKey` of some index
entry, only exact matches are returned, capped at `limit`; the part_000
`searchItems` variant has no exact tier and also returns substring-only
matches alongside (see the counterexample). -/
theorem C5_exact_tier (idx : List IndexEntry) (keyword : String) (limit : Nat)
    (hkey : ¬ normalize keyword = "")
    (x0 : IndexEntry) (hx0 : x0 ∈ idx) (hx0k : x0.key = normalize keyword) :
    findItems idx keyword limit =
      (idx.filter (fun x => x.key == normalize keyword)).take limit ∧
    ∀ y ∈ findItems idx keyword limit, y.key = normalize keyword := by
  have hmem : x0 ∈ idx.filter (fun x => x.key == normalize keyword) :=
    List.mem_filter.mpr ⟨hx0, by simp [hx0k]⟩
  have hmain : findItems idx keyword limit =
      (idx.filter (fun x => x.key == normalize keyword)).take limit := by
    simp only [findItems, if_neg hkey]
    cases hf : idx.filter (fun x => x.key == normalize keyword) with
    | nil => rw [hf] at hmem; simp at hmem
    | cons e es => rfl
  refine ⟨hmain, ?_⟩
  intro y hy
  rw [hmain] at hy
  have hy' : y ∈ idx.filter (fun x => x.key == normalize keyword) :=
    List.take_subset _ _ hy
  have := (List.mem_filter.mp hy').2
  simpa using this

/-- C5 witness: a one-entry index with an exact hit. -/
theorem C5_witness :
    findItems [⟨1, "ab", "ab"⟩] "ab" 8 =
      ([⟨1, "ab", "ab"⟩].filter (fun x => x.key == normalize "ab")).take 8 ∧
    ∀ y ∈ findItems [⟨1, "ab", "ab"⟩] "ab" 8, y.key = normalize "ab" :=
  C5_exact_tier [⟨1, "ab", "ab"⟩] "ab" 8 (by decide) ⟨1, "ab", "ab"⟩
    (by decide) (by decide)

/-! ### Claim C6: tier merging without length ranking -/

/-- C6 counterexample: the claim says shorter display names are ranked
before longer ones within a tier; but `findItems` (src/index.js:83-102)
applies no sorting: for keyword "a" over the index `[abc, ab]` it keeps
the catalog order `[abc, ab]` instead of the claimed `[ab, abc]`. -/
theorem C6_counterexample :
    findItems [⟨1, "abc", "abc"⟩, ⟨2, "ab", "ab"⟩] "a" 8 =
      [⟨1, "abc", "abc"⟩, ⟨2, "ab", "ab"⟩] ∧
    ¬ (findItems [⟨1, "abc", "abc"⟩, ⟨2, "ab", "ab"⟩] "a" 8).map
        (fun x => x.raw) = ["ab", "abc"] := by
  decide

/-- C6 (amended): for a keyword with no exact match, `findItems`
(src/index.js:83-102) returns every startsWith-tier match before any
substring-only match, preserves catalog/index order within the tiers
instead of ranking shorter display names first, de-duplicates by id, and
caps the merged result at `limit` (for `limit ≥ 1`). -/
theorem C6_merge_rule (idx : List IndexEntry) (keyword : String) (limit : Nat)
    (hlim : 1 ≤ limit)
    (hexact : ∀ x ∈ idx, ¬ x.key = normalize keyword) :
    (findItems idx keyword limit).length ≤ limit ∧
    ((findItems idx keyword limit).map (fun x => x.id)).Nodup ∧
    List.Sublist (findItems idx keyword limit)
      (idx.filter (fun x => strStarts x.key (normalize keyword)) ++
       idx.filter (fun x => strIncludes x.key (normalize keyword))) ∧
    (∀ y ∈ findItems idx keyword limit,
       strIncludes y.key (normalize keyword) = true) ∧
    ∃ A B, findItems idx keyword limit = A ++ B ∧
      (∀ x ∈ A, strStarts x.key (normalize keyword) = true) ∧
      (∀ y ∈ B, strStarts y.key (normalize keyword) = false) := by
  by_cases hkey : normalize keyword = ""
  · have hnil : findItems idx keyword limit = [] := by
      simp [findItems, hkey]
    rw [hnil]
    exact ⟨by simp, by simp, List.nil_sublist _, by simp, [], [], rfl,
      by simp, by simp⟩
  · have hfe : idx.filter (fun x => x.key == normalize keyword) = [] := by
      rw [List.filter_eq_nil_iff]
      intro x hx
      simpa using hexact x hx
    have hform : findItems idx keyword limit =
        mergeDedup limit
          (idx.filter (fun x => strStarts x.key (normalize keyword)) ++
           idx.filter (fun x => strIncludes x.key (normalize keyword))) [] := by
      simp only [findItems, if_neg hkey]
      rw [hfe]
    rw [hform]
    refine ⟨mergeDedup_length_le _ _ _ hlim, mergeDedup_nodup _ _ _,
      mergeDedup_sublist _ _ _, ?_, ?_⟩
    · intro y hy
      have hmem := (mergeDedup_sublist _ _ _).subset hy
      rcases List.mem_append.mp hmem with hpre | hsub
      · exact strStarts_includes _ _ (List.mem_filter.mp hpre).2
      · exact (List.mem_filter.mp hsub).2
    · refine mergeDedup_tier (fun x => strStarts x.key (normalize keyword))
        _ _ limit [] ?_ ?_
      · intro x hx
        exact (List.mem_filter.mp hx).2
      · intro y hy hp
        refine Or.inr ?_
        have hyidx : y ∈ idx := (List.mem_filter.mp hy).1
        have : y ∈ idx.filter (fun x => strStarts x.key (normalize keyword)) :=
          List.mem_filter.mpr ⟨hyidx, hp⟩
        exact List.mem_map.mpr ⟨y, this, rfl⟩

/-- C6 witness: a startsWith match, a substring-only match and a duplicate
entry, merged with the amended rule. -/
theorem C6_witness :
    (findItems [⟨1, "ab", "ab"⟩, ⟨2, "xab", "xab"⟩, ⟨1, "ab", "ab"⟩]
        "a" 8).length ≤ 8 ∧
    ((findItems [⟨1, "ab", "ab"⟩, ⟨2, "xab", "xab"⟩, ⟨1, "ab", "ab"⟩]
        "a" 8).map (fun x => x.id)).Nodup ∧
    List.Sublist
      (findItems [⟨1, "ab", "ab"⟩, ⟨2, "xab", "xab"⟩, ⟨1, "ab", "ab"⟩] "a" 8)
      ([⟨1, "ab", "ab"⟩, ⟨2, "xab", "xab"⟩, ⟨1, "ab", "ab"⟩].filter
        (fun x => strStarts x.key (normalize "a")) ++
       [⟨1, "ab", "ab"⟩, ⟨2, "xab", "xab"⟩, ⟨1, "ab", "ab"⟩].filter
        (fun x => strIncludes x.key (normalize "a"))) ∧
    (∀ y ∈ findItems [⟨1, "ab", "ab"⟩, ⟨2, "xab", "xab"⟩, ⟨1, "ab", "ab"⟩]
        "a" 8, strIncludes y.key (normalize "a") = true) ∧
    ∃ A B,
      findItems [⟨1, "ab", "ab"⟩, ⟨2, "xab", "xab"⟩, ⟨1, "ab", "ab"⟩] "a" 8 =
        A ++ B ∧
      (∀ x ∈ A, strStarts x.key (normalize "a") = true) ∧
      (∀ y ∈ B, strStarts y.key (normalize "a") = false) :=
  C6_merge_rule [⟨1, "ab", "ab"⟩, ⟨2, "xab", "xab"⟩, ⟨1, "ab", "ab"⟩] "a" 8
    (by decide) (by decide)

/-! ### Claim C3: unconditional in-flight cleanup -/

/-- C3: in `queryTchwPrice` (part_001:152-190), settling an aggregation —
resolving with a result, resolving with not-found, or rejecting (the
aggregation threw) — always removes the key's in-flight registration (the
`finally { inflight.delete(key) }` is unconditional and the failure
settlement is always enabled); and in every reachable state an in-flight
entry points at a still-running aggregation, so no settled aggregation's
entry is ever left in the in-flight map. -/
theorem C3_inflight_cleanup :
    (∀ (s : CoordState) (n : Nat) (k : String),
       s.aggs[n]? = some ⟨k, .running⟩ →
       (∀ (itemId : Nat) (nm : String) (st : DcStats) (c' : CoordState),
          step (.settleOk n itemId nm st) s = some c' →
          aget c'.inflight k = none) ∧
       (∀ c' : CoordState, step (.settleNotFound n) s = some c' →
          aget c'.inflight k = none) ∧
       (∀ c' : CoordState, step (.settleThrow n) s = some c' →
          aget c'.inflight k = none) ∧
       (step (.settleThrow n) s).isSome = true) ∧
    (∀ (c0 : CoordState) (tr : List CoordEv) (c : CoordState), INV c0 →
       run c0 tr = some c →
       ∀ (k : String) (n : Nat), aget c.inflight k = some n →
         ∃ a, c.aggs[n]? = some a ∧ a.status = .running) := by
  constructor
  · intro s n k ha
    refine ⟨?_, ?_, ?_, ?_⟩
    · intro itemId nm st c' h
      simp only [step, ha, Option.some.injEq] at h
      rw [← h]
      exact aget_adel_self _ _
    · intro c' h
      simp only [step, ha, Option.some.injEq] at h
      rw [← h]
      exact aget_adel_self _ _
    · intro c' h
      simp only [step, ha, Option.some.injEq] at h
      rw [← h]
      exact aget_adel_self _ _
    · simp [step, ha]
  · intro c0 tr c hI hrun k n hk
    obtain ⟨a, ha, _, har⟩ := (inv_run hI hrun).reg k n hk
    exact ⟨a, ha, har⟩

/-- C3 witness: a state with one running registered aggregation; throwing
settles it, and the in-flight entry for its key is gone. -/
theorem C3_witness :
    (step (.settleThrow 0)
      ⟨[], [("a", 0)], [⟨"a", .running⟩],
       [⟨"a", .awaitOwn 0⟩, ⟨"a", .start⟩], 0⟩).isSome = true ∧
    ∃ a, (⟨[], [("a", 0)], [⟨"a", .running⟩],
       [⟨"a", .awaitOwn 0⟩, ⟨"a", .start⟩], 0⟩ : CoordState).aggs[0]? = some a ∧
      a.status = AggStatus.running :=
  ⟨(C3_inflight_cleanup.1
      ⟨[], [("a", 0)], [⟨"a", .running⟩],
       [⟨"a", .awaitOwn 0⟩, ⟨"a", .start⟩], 0⟩ 0 "a" (by decide)).2.2.2,
   C3_inflight_cleanup.2 (initTwoKeys "a" "a" 0) [.callerStart 0]
      ⟨[], [("a", 0)], [⟨"a", .running⟩],
       [⟨"a", .awaitOwn 0⟩, ⟨"a", .start⟩], 0⟩
      (inv_init "a" "a" 0) (by decide) "a" 0 (by decide)⟩

/-! ### Claim C8: TTL expiry -/

/-- C8 counterexample: the claim says an expired entry is evicted from the
cache at the lookup; but the cached `fetchPrice` (src/index.js:414-421)
never deletes an expired entry — it only overwrites it after a successful
re-aggregation.  Here the entry (created at 0, expiring at `CACHE_TTL_MS =
600000`) is queried at 600001, more than the TTL after creation, the
re-aggregation finds no listings, and the stale entry is still in the
cache afterwards. -/
theorem C8_counterexample :
    (fetchPriceCached [("7", ⟨⟨1, 1, 1, false⟩, 600000⟩)] 600001 7 []).1 =
      none ∧
    (fetchPriceCached [("7", ⟨⟨1, 1, 1, false⟩, 600000⟩)] 600001 7 []).2 =
      [("7", ⟨⟨1, 1, 1, false⟩, 600000⟩)] := by
  decide

/-- C8 (amended): an expired cache entry is never returned, and a fresh
aggregation runs.  In the part_001 coordinator (`getCache`,
part_001:33-41) the expired entry is deleted at that lookup and a new
aggregation is registered; a query within the TTL window returns the
stored value tagged `fromCache` without starting an aggregation.  The
cached `fetchPrice` of src/index.js also misses and re-aggregates once the
entry has expired, but leaves the stale entry in place, overwriting it
only on a successful re-aggregation. -/
theorem C8_ttl_rule :
    (∀ (s : CoordState) (i : Nat) (k : String) (v : QOutcome) (created : Nat),
       s.callers[i]? = some ⟨k, .start⟩ →
       aget s.cache k = some (v, created + CACHE_TTL_MS) →
       created + CACHE_TTL_MS < s.now →
       aget s.inflight k = none →
       (step (.callerStart i) s).map
         (fun c' => (aget c'.cache k, aget c'.inflight k, c'.aggs.length,
                     c'.callers[i]?)) =
       some (none, some s.aggs.length, s.aggs.length + 1,
             some ⟨k, .awaitOwn s.aggs.length⟩)) ∧
    (∀ (s : CoordState) (i : Nat) (k : String) (v : QOutcome)
       (expiresAt : Nat),
       s.callers[i]? = some ⟨k, .start⟩ →
       aget s.cache k = some (v, expiresAt) →
       s.now ≤ expiresAt →
       (step (.callerStart i) s).map
         (fun c' => (c'.callers[i]?, c'.aggs.length, aget c'.cache k)) =
       some (some ⟨k, .done ⟨v, true, false⟩⟩, s.aggs.length,
             some (v, expiresAt))) ∧
    (∀ (cache : List (String × PCacheEnt)) (now itemId : Nat)
       (worlds : List WorldData) (ent : PCacheEnt) (p0 : Nat) (ps : List Nat),
       aget cache (toString itemId) = some ent →
       ent.expires ≤ now →
       worlds.filterMap (fun w => w.listings.head?) = p0 :: ps →
       ∃ r, (fetchPriceCached cache now itemId worlds).1 = some r ∧
         r.cached = false ∧
         aget (fetchPriceCached cache now itemId worlds).2 (toString itemId) =
           some ⟨r, now + CACHE_TTL_MS⟩) := by
  refine ⟨?_, ?_, ?_⟩
  · intro s i k v created hc hcache hexp hf
    have hlt : i < s.callers.length := by
      rcases List.getElem?_eq_some.mp hc with ⟨hlt, _⟩
      exact hlt
    have hgc : getCache s.cache k s.now = (none, adel s.cache k) := by
      simp only [getCache, hcache]
      rw [if_pos (by omega)]
    simp only [step, hc, hgc, hf, Option.map_some']
    simp [aget_adel_self, aget_aset_self, List.getElem?_set_self, hlt]
  · intro s i k v expiresAt hc hcache hle
    have hlt : i < s.callers.length := by
      rcases List.getElem?_eq_some.mp hc with ⟨hlt, _⟩
      exact hlt
    have hgc : getCache s.cache k s.now = (some v, s.cache) := by
      simp only [getCache, hcache]
      rw [if_neg (by omega)]
    simp only [step, hc, hgc, Option.map_some']
    simp [List.getElem?_set_self, hlt, hcache]
  · intro cache now itemId worlds ent p0 ps hcache hle hp
    have hhit : (match aget cache (toString itemId) with
        | some c => if c.expires > now then
            some { c.data with cached := true } else none
        | none => none) = (none : Option PriceData) := by
      rw [hcache]
      simp only []
      rw [if_neg (by omega)]
    refine ⟨{ min := minNat (p0 :: ps), avg := roundMean (p0 :: ps),
              last := jsOrNat
                (worlds.filterMap (fun w => w.recentHistory.head?)).head? p0,
              cached := false }, ?_, rfl, ?_⟩
    · simp [fetchPriceCached, hhit, hp]
    · simp only [fetchPriceCached, hhit, hp]
      exact aget_aset_self _ _ _

/-- C8 witness: concrete expired-entry and live-entry lookups. -/
theorem C8_witness :
    ((step (.callerStart 0)
        ⟨[("a", (QOutcome.notFound, 600000))], [], [], [⟨"a", .start⟩],
         600001⟩).map
      (fun c' => (aget c'.cache "a", aget c'.inflight "a", c'.aggs.length,
                  c'.callers[0]?)) =
      some (none, some 0, 1, some ⟨"a", .awaitOwn 0⟩)) ∧
    ((step (.callerStart 0)
        ⟨[("a", (QOutcome.notFound, 600000))], [], [], [⟨"a", .start⟩],
         600000⟩).map
      (fun c' => (c'.callers[0]?, c'.aggs.length, aget c'.cache "a")) =
      some (some ⟨"a", .done ⟨QOutcome.notFound, true, false⟩⟩, 0,
            some (QOutcome.notFound, 600000))) ∧
    ∃ r, (fetchPriceCached [("7", ⟨⟨1, 1, 1, false⟩, 5⟩)] 100 7
            [⟨[100], []⟩]).1 = some r ∧
      r.cached = false ∧
      aget (fetchPriceCached [("7", ⟨⟨1, 1, 1, false⟩, 5⟩)] 100 7
            [⟨[100], []⟩]).2 (toString 7) = some ⟨r, 100 + CACHE_TTL_MS⟩ :=
  ⟨C8_ttl_rule.1 ⟨[("a", (QOutcome.notFound, 600000))], [], [],
      [⟨"a", .start⟩], 600001⟩ 0 "a" QOutcome.notFound 0 (by decide)
      (by decide) (by decide) (by decide),
   C8_ttl_rule.2.1 ⟨[("a", (QOutcome.notFound, 600000))], [], [],
      [⟨"a", .start⟩], 600000⟩ 0 "a" QOutcome.notFound 600000 (by decide)
      (by decide) (by decide),
   C8_ttl_rule.2.2 [("7", ⟨⟨1, 1, 1, false⟩, 5⟩)] 100 7 [⟨[100], []⟩]
      ⟨⟨1, 1, 1, false⟩, 5⟩ 100 [] (by decide) (by decide) (by decide)⟩

/-! ### Claim C9: cache keys and resolved identifiers -/

/-- C9 counterexample: the claim says cache and in-flight keys are computed
from the resolved item id, so spellings resolving to the same id coalesce;
but `queryTchwPrice` builds its key from the raw lowercased name
(part_001:153) before resolution.  "Iron Ore" and "IronOre" both resolve
to item 5057 under the same search response, yet produce different keys,
and two concurrent callers run two aggregation passes. -/
theorem C9_counterexample :
    resolveItemIdByName "Iron Ore" [⟨5057, "Iron Ore"⟩] =
      some (5057, "Iron Ore") ∧
    resolveItemIdByName "IronOre" [⟨5057, "Iron Ore"⟩] =
      some (5057, "Iron Ore") ∧
    ¬ tchwKey "Iron Ore" = tchwKey "IronOre" ∧
    (run (initTwoKeys (tchwKey "Iron Ore") (tchwKey "IronOre") 0)
      [.callerStart 0, .callerStart 1]).map (fun c => c.aggs.length) =
      some 2 ∧
    ¬ (2 : Nat) ≤ 1 := by
  decide

/-- C9 (amended): in the part_001 coordinator the cache and in-flight keys
are the lowercased raw item name (`tchw:` + name), computed before any
resolution, so callers coalesce exactly when those name-keys are equal and
equal-resolving spellings with different keys each run their own
aggregation; in the src/index.js and part_002 variants the cache key is
the item id itself, so two lookups of the same id within the TTL share one
entry (those variants have no in-flight map). -/
theorem C9_key_rule :
    (∀ (k1 k2 : String) (t : Nat), ¬ k1 = k2 →
       (run (initTwoKeys k1 k2 t) [.callerStart 0, .callerStart 1]).map
         (fun c => (c.aggs.length, c.callers[1]?)) =
       some (2, some ⟨k2, .awaitOwn 1⟩)) ∧
    (∀ (k : String) (t : Nat),
       (run (initTwoKeys k k t) [.callerStart 0, .callerStart 1]).map
         (fun c => (c.aggs.length, c.callers[1]?)) =
       some (1, some ⟨k, .awaitShared 0⟩)) ∧
    (∀ (now itemId d : Nat) (worlds : List WorldData) (p0 : Nat)
       (ps : List Nat),
       worlds.filterMap (fun w => w.listings.head?) = p0 :: ps →
       d < CACHE_TTL_MS →
       ∃ r1, (fetchPriceCached [] now itemId worlds).1 = some r1 ∧
         (fetchPriceCached (fetchPriceCached [] now itemId worlds).2 (now + d)
            itemId []).1 = some { r1 with cached := true }) ∧
    (∀ (now itemId d : Nat) (fresh fresh2 : DcMarket), d < CACHE_TTL_MS →
       (fetchMarket (fetchMarket [] now itemId fresh).2 (now + d) itemId
          fresh2).1 = fresh) := by
  refine ⟨?_, ?_, ?_, ?_⟩
  · intro k1 k2 t hne
    simp [run, step, initTwoKeys, getCache, aget, aset, adel, hne]
  · intro k t
    simp [run, step, initTwoKeys, getCache, aget, aset, adel]
  · intro now itemId d worlds p0 ps hp hd
    have h1 : fetchPriceCached [] now itemId worlds =
        (some { min := minNat (p0 :: ps), avg := roundMean (p0 :: ps),
                last := jsOrNat
                  (worlds.filterMap (fun w => w.recentHistory.head?)).head? p0,
                cached := false },
         aset [] (toString itemId)
           { data := { min := minNat (p0 :: ps), avg := roundMean (p0 :: ps),
                       last := jsOrNat
                         (worlds.filterMap
                           (fun w => w.recentHistory.head?)).head? p0,
                       cached := false },
             expires := now + CACHE_TTL_MS } ) := by
      simp [fetchPriceCached, aget, hp]
    refine ⟨_, by rw [h1], ?_⟩
    rw [h1]
    simp only [fetchPriceCached, aget_aset_self]
    rw [if_pos (by omega)]
  · intro now itemId d fresh fresh2 hd
    have h1 : fetchMarket [] now itemId fresh =
        (fresh, aset [] itemId { data := fresh,
                                 expire := now + CACHE_TTL_MS }) := by
      simp [fetchMarket, aget]
    rw [h1]
    simp only [fetchMarket, aget_aset_self]
    rw [if_pos (by omega)]

/-- C9 witness: concrete instances of the amended key rule. -/
theorem C9_witness :
    ((run (initTwoKeys "a" "b" 0) [.callerStart 0, .callerStart 1]).map
       (fun c => (c.aggs.length, c.callers[1]?)) =
     some (2, some ⟨"b", CallerPhase.awaitOwn 1⟩)) ∧
    ((run (initTwoKeys "a" "a" 0) [.callerStart 0, .callerStart 1]).map
       (fun c => (c.aggs.length, c.callers[1]?)) =
     some (1, some ⟨"a", CallerPhase.awaitShared 0⟩)) ∧
    (∃ r1, (fetchPriceCached [] 5 7 [⟨[100], []⟩]).1 = some r1 ∧
       (fetchPriceCached (fetchPriceCached [] 5 7 [⟨[100], []⟩]).2 (5 + 3)
          7 []).1 = some { r1 with cached := true }) ∧
    (fetchMarket (fetchMarket [] 5 7 ⟨[], []⟩).2 (5 + 3) 7
       ⟨[⟨9, none, none⟩], []⟩).1 = ⟨[], []⟩ :=
  ⟨C9_key_rule.1 "a" "b" 0 (by decide),
   C9_key_rule.2.1 "a" 0,
   C9_key_rule.2.2.1 5 7 3 [⟨[100], []⟩] 100 [] (by decide) (by decide),
   C9_key_rule.2.2.2 5 7 3 ⟨[], []⟩ ⟨[⟨9, none, none⟩], []⟩ (by decide)⟩

/-! ### Claim C2: single-flight coalescing -/

/-- C2 counterexample: the claim says a second query for the same key that
arrives while the first's aggregation is outstanding shares exactly one
aggregation pass and is tagged `sharedInflight`; but the cached
`fetchPrice` variant (src/index.js:414-457) has no in-flight registry:
two calls for item 7 that both start before either completes each run
their own world loop (two passes), and neither result is tagged as
shared (`cached = false` on both). -/
theorem C2_counterexample :
    (runF (initF2 7 0)
      [.enter 0, .enter 1, .complete 0 [⟨[100], []⟩],
       .complete 1 [⟨[100], []⟩]]).map
      (fun c => (c.passes, c.callers[0]?, c.callers[1]?)) =
    some (2, some ⟨7, .done ⟨100, 100, 100, false⟩⟩,
          some ⟨7, .done ⟨100, 100, 100, false⟩⟩) ∧
    ¬ (2 : Nat) = 1 := by
  decide

/-- C2 (amended): in `queryTchwPrice` (part_001:152-190) a second caller
for the same key arriving while the first's aggregation is outstanding
awaits the pending promise: exactly one aggregation is registered, both
callers receive the same settled value, the owner's reply is tagged
`fromCache = false` and the second caller's `fromCache = true,
sharedInflight = true`; in every reachable coordinator state there is at
most one running aggregation per key.  The cached `fetchPrice` variant of
src/index.js has no such registry: both concurrent callers proceed into
their own aggregation pass. -/
theorem C2_single_flight :
    (∀ (k nm : String) (t d1 d2 itemId : Nat) (st : DcStats),
       (run (initTwoKeys k k t)
         [.callerStart 0, .tick d1, .callerStart 1, .tick d2,
          .settleOk 0 itemId nm st, .ownerResume 0, .sharedResume 1]).map
         (fun c => (c.aggs.length, c.callers[0]?, c.callers[1]?)) =
       some (1,
         some ⟨k, .done ⟨.found itemId nm st, false, false⟩⟩,
         some ⟨k, .done ⟨.found itemId nm st, true, true⟩⟩)) ∧
    (∀ (c0 : CoordState) (tr : List CoordEv) (c : CoordState), INV c0 →
       run c0 tr = some c →
       ∀ (n m : Nat) (a b : AggRec), c.aggs[n]? = some a →
         c.aggs[m]? = some b → a.key = b.key →
         a.status = .running → b.status = .running → n = m) ∧
    (∀ (itemId t : Nat),
       (runF (initF2 itemId t) [.enter 0, .enter 1]).map
         (fun c => (c.callers[0]?, c.callers[1]?)) =
       some (some ⟨itemId, .fetching⟩, some ⟨itemId, .fetching⟩)) := by
  refine ⟨?_, ?_, ?_⟩
  · intro k nm t d1 d2 itemId st
    simp [run, step, initTwoKeys, getCache, setCache, aget, aset, adel]
  · intro c0 tr c hI hrun n m a b ha hb hk hra hrb
    have hc := inv_run hI hrun
    have h1 := hc.bak n a ha hra
    have h2 := hc.bak m b hb hrb
    rw [hk] at h1
    rw [h1] at h2
    exact Option.some.inj h2
  · intro itemId t
    simp [runF, stepF, initF2, aget]

/-- C2 witness: a concrete shared-in-flight run, the at-most-one-running
invariant instantiated in a reachable state, and the concurrent
`fetchPrice` divergence at item 3. -/
theorem C2_witness :
    ((run (initTwoKeys "a" "a" 5)
        [.callerStart 0, .tick 1, .callerStart 1, .tick 2,
         .settleOk 0 42 "x" ⟨none, none, none, none⟩, .ownerResume 0,
         .sharedResume 1]).map
        (fun c => (c.aggs.length, c.callers[0]?, c.callers[1]?)) =
      some (1,
        some ⟨"a", .done ⟨.found 42 "x" ⟨none, none, none, none⟩,
                          false, false⟩⟩,
        some ⟨"a", .done ⟨.found 42 "x" ⟨none, none, none, none⟩,
                          true, true⟩⟩)) ∧
    (0 : Nat) = 0 ∧
    ((runF (initF2 3 0) [.enter 0, .enter 1]).map
        (fun c => (c.callers[0]?, c.callers[1]?)) =
      some (some ⟨3, FPhase.fetching⟩, some ⟨3, FPhase.fetching⟩)) :=
  ⟨C2_single_flight.1 "a" "x" 5 1 2 42 ⟨none, none, none, none⟩,
   C2_single_flight.2.1 (initTwoKeys "a" "a" 0) [.callerStart 0]
     ⟨[], [("a", 0)], [⟨"a", .running⟩],
      [⟨"a", .awaitOwn 0⟩, ⟨"a", .start⟩], 0⟩
     (inv_init "a" "a" 0) (by decide) 0 0 ⟨"a", .running⟩ ⟨"a", .running⟩
     (by decide) (by decide) rfl rfl rfl,
   C2_single_flight.2.2 3 0⟩

end Bot
